import Mathlib

/-!
Verification of the Sudoku solver core (grid model, constraint check,
text serialization, time-bounded backtracking search) as a shallow
embedding of `src/main.cpp` (class `Sudoku`).

Machine integers of the source (`int` cell values, loop counters) are
modelled as `ℕ`; the 9×9 array `grid` as a function `Fin 9 → Fin 9 → ℕ`;
the wall clock queried at each entry of `Sudoku::backtrack` as an
abstract oracle `clock : ℕ → Bool` giving the outcome of the k-th
deadline comparison (`now() - start_time > TIME_LIMIT`); text as
`List Char`.  The recursion of `backtrack` is driven by a fuel
parameter; `solve` supplies fuel 82, and the fuel-irrelevance theorem
(any fuel above the number of empty cells, itself at most 81, gives the
same run) shows the fuel never runs out, mirroring the C++ recursion
being well-founded on the number of empty cells.
-/

namespace Sudoku

/-- The 9×9 grid of `Sudoku::grid`: cell values, `0` = empty. -/
abbrev Grid := Fin 9 → Fin 9 → ℕ

/-- Model of the `grid{}` zero-initialisation: the all-empty grid. -/
def emptyGrid : Grid := fun _ _ => 0

/-- Model of `grid[row][col] = v` (single cell assignment). -/
def setCell (g : Grid) (r c : Fin 9) (v : ℕ) : Grid :=
  fun i j => if i = r ∧ j = c then v else g i j

/-- Row of the 3×3 box of row `r` plus offset `i`
(`startRow = row - row % 3; startRow + i` in `Sudoku::isSafe`). -/
def boxIdx (r : Fin 9) (i : Fin 3) : Fin 9 :=
  ⟨r.1 - r.1 % 3 + i.1, by have hr := r.isLt; have hi := i.isLt; omega⟩

/-- Model of `Sudoku::isSafe(row, col, num)`: scans the whole row `row`, the whole
column `col` and the whole 3×3 box of `(row, col)` — including the cell
`(row, col)` itself — for an occurrence of `num`. -/
def isSafe (g : Grid) (row col : Fin 9) (num : ℕ) : Bool :=
  ((List.finRange 9).all fun j => !(g row j == num)) &&
  ((List.finRange 9).all fun i => !(g i col == num)) &&
  ((List.finRange 3).all fun i => (List.finRange 3).all fun j =>
    !(g (boxIdx row i) (boxIdx col j) == num))

/-- Row-by-row scan of `Sudoku::findEmptyCell`: first row in the list
that has an empty cell, paired with its leftmost empty column. -/
def findEmptyAux (g : Grid) : List (Fin 9) → Option (Fin 9 × Fin 9)
  | [] => none
  | r :: rs =>
    match (List.finRange 9).find? (fun c => g r c == 0) with
    | some c => some (r, c)
    | none => findEmptyAux g rs

/-- Model of `Sudoku::findEmptyCell`: the first cell (row-major order) holding 0,
or `none` when the grid is full. -/
def findEmptyCell (g : Grid) : Option (Fin 9 × Fin 9) :=
  findEmptyAux g (List.finRange 9)

/-! ### Text serialization

`Sudoku::Sudoku(const std::string&)` reads the file line by line
(`std::getline`), and `Sudoku::toString` renders the grid. -/

/-- Line decomposition of a character stream, as done by repeated
`std::getline` calls: split on `'\n'`; a trailing newline does not
produce an extra empty line. -/
def splitLines : List Char → List (List Char)
  | [] => []
  | c :: rest =>
    if c = '\n' then [] :: splitLines rest
    else
      match splitLines rest with
      | [] => [[c]]
      | l :: ls => (c :: l) :: ls

/-- Model of `line.find("---") != std::string::npos`: some window of three
consecutive characters of the line is `"---"`. -/
def hasSep : List Char → Bool
  | [] => false
  | c :: rest => ((c :: rest).take 3 == ['-', '-', '-']) || hasSep rest

/-- Model of `grid[i][col] = v` with untyped indices (the parser's write;
in-range for every reachable call). -/
def setCellN (g : Grid) (i col : ℕ) (v : ℕ) : Grid :=
  fun r c => if r.1 = i ∧ c.1 = col then v else g r c

/-- The character loop of the parsing constructor
(`for (char c : line)`, with the column cursor `current_col`):
`'.'` writes 0, a digit writes its value, anything else is skipped;
the scan stops once 9 columns are filled. -/
def parseLine (i : ℕ) : List Char → ℕ → Grid → Grid
  | [], _, g => g
  | ch :: rest, col, g =>
    if 9 ≤ col then g
    else if ch = '.' then parseLine i rest (col + 1) (setCellN g i col 0)
    else if ch.isDigit then
      parseLine i rest (col + 1) (setCellN g i col (ch.toNat - '0'.toNat))
    else parseLine i rest col g

/-- The line loop of the parsing constructor
(`while (i < N && std::getline(file, line))`): a line containing
`"---"` is skipped without counting, any other line is parsed as row
`i`. -/
def parseLines : List (List Char) → ℕ → Grid → Grid
  | [], _, g => g
  | l :: ls, i, g =>
    if 9 ≤ i then g
    else if hasSep l then parseLines ls i g
    else parseLines ls (i + 1) (parseLine i l 0 g)

/-- Model of `Sudoku::Sudoku(const std::string&)`, with the text of the named
file as input: parse on top of the zero-initialised grid. -/
def construct_from_text (cs : List Char) : Grid :=
  parseLines (splitLines cs) 0 emptyGrid

/-- The cell renderer of `Sudoku::toString`:
`grid[i][j] ? static_cast<char>(grid[i][j] + '0') : '.'`. -/
def cellChar (v : ℕ) : Char :=
  if v ≠ 0 then Char.ofNat (v + '0'.toNat) else '.'

/-- The separator line `"-----------"` of `Sudoku::toString`. -/
def dashLine : List Char := List.replicate 11 '-'

/-- The inner loop of `Sudoku::toString`: the 9 cell characters of row
`i`, with `'|'` appended after columns 3 and 6
(`(j+1) % 3 == 0 && j+1 != N`). -/
def rowChars (g : Grid) (i : Fin 9) : List Char :=
  ((List.finRange 9).map fun j =>
    cellChar (g i j) ::
      (if (j.1 + 1) % 3 = 0 ∧ j.1 + 1 ≠ 9 then ['|'] else [])).flatten

/-- Model of `Sudoku::toString`: each row followed by `"\n"`, with the dashed
separator line after rows 3 and 6 (`(i+1) % 3 == 0 && i+1 != N`). -/
def toText (g : Grid) : List Char :=
  ((List.finRange 9).map fun i =>
    rowChars g i ++ '\n' ::
      (if (i.1 + 1) % 3 = 0 ∧ i.1 + 1 ≠ 9 then dashLine ++ ['\n'] else [])).flatten

/-! ### Search engine -/

/-- The solver state: the grid (mutated in place by the C++ code), the
`timed_out` flag, and the number of wall-clock checks made so far (the
index fed to the clock oracle). -/
structure SState where
  grid : Grid
  timedOut : Bool
  ticks : ℕ

instance : DecidableEq SState :=
  fun a b =>
    decidable_of_iff (a.grid = b.grid ∧ a.timedOut = b.timedOut ∧ a.ticks = b.ticks)
      (by cases a; cases b; simp)

/-- Model of `grid[row][col] = num` inside the search. -/
def placeState (s : SState) (r c : Fin 9) (n : ℕ) : SState :=
  { s with grid := setCell s.grid r c n }

/-- The candidate values of `for (int num = 1; num <= 9; ++num)`. -/
def nums1to9 : List ℕ := [1, 2, 3, 4, 5, 6, 7, 8, 9]

/-- The candidate loop of `Sudoku::backtrack`, with the recursive call
abstracted as `recur`: for each remaining candidate `num`, if it is safe,
place it and recurse; on success propagate success; if the recursive call
set `timed_out`, propagate failure without undoing; otherwise undo
(`grid[row][col] = 0`) and try the next candidate. -/
def tryNums (recur : SState → SState × Bool) (r c : Fin 9) :
    SState → List ℕ → SState × Bool
  | s, [] => (s, false)
  | s, n :: rest =>
    if isSafe s.grid r c n then
      match recur (placeState s r c n) with
      | (s2, true) => (s2, true)
      | (s2, false) =>
        if s2.timedOut then (s2, false)
        else tryNums recur r c (placeState s2 r c 0) rest
    else tryNums recur r c s rest

/-- Model of `Sudoku::backtrack`: check the deadline (one clock tick), then find
the next empty cell; if none, the grid is complete; otherwise run the
candidate loop.  `fuel` drives the recursion; it never runs out when
larger than the number of empty cells (theorem `backtrack_ext`). -/
def backtrack (clock : ℕ → Bool) : ℕ → SState → SState × Bool
  | 0, s => (s, false)
  | fuel + 1, s =>
    if clock s.ticks then ({ s with timedOut := true }, false)
    else
      let s1 := { s with ticks := s.ticks + 1 }
      match findEmptyCell s1.grid with
      | none => (s1, true)
      | some (r, c) => tryNums (backtrack clock fuel) r c s1 nums1to9

/-- Model of `Sudoku::solve`: reset `timed_out`, record the start time (tick
counter 0), and run `backtrack`.  Fuel 82 exceeds the 81-cell bound on
the recursion depth. -/
def solveRun (clock : ℕ → Bool) (g : Grid) : SState × Bool :=
  backtrack clock 82 { grid := g, timedOut := false, ticks := 0 }

/-- The `SolveOutcome` of the spec: the three-way outcome the caller of
`solve` distinguishes. -/
inductive SolveOutcome where
  | Solved
  | Exhausted
  | TimedOut
deriving DecidableEq

/-- The outcome dispatch of `main` on `Sudoku::solve` and
`Sudoku::hasTimedOut`: `solve()` true ↦ `Solved`; otherwise
`hasTimedOut()` distinguishes `TimedOut` from `Exhausted`. -/
def solveOutcome (clock : ℕ → Bool) (g : Grid) : SolveOutcome :=
  let r := solveRun clock g
  if r.2 then .Solved else if r.1.timedOut then .TimedOut else .Exhausted

/-! ### Instrumented search engine

`backtrackT` is `backtrack` with a ghost trace recording the grid after
each placement (`grid[row][col] = num`) and after each undo
(`grid[row][col] = 0`), in execution order; `backtrackT_fst` proves its
run component equal to `backtrack`'s. -/

/-- Variant of `tryNums` with the ghost trace of grids after each placement and
after each undo. -/
def tryNumsT (recurT : SState → (SState × Bool) × List Grid) (r c : Fin 9) :
    SState → List ℕ → (SState × Bool) × List Grid
  | s, [] => ((s, false), [])
  | s, n :: rest =>
    if isSafe s.grid r c n then
      match recurT (placeState s r c n) with
      | ((s2, true), tr) => ((s2, true), setCell s.grid r c n :: tr)
      | ((s2, false), tr) =>
        if s2.timedOut then ((s2, false), setCell s.grid r c n :: tr)
        else
          let res := tryNumsT recurT r c (placeState s2 r c 0) rest
          (res.1, setCell s.grid r c n :: tr ++ setCell s2.grid r c 0 :: res.2)
    else tryNumsT recurT r c s rest

/-- Variant of `backtrack` with the ghost trace. -/
def backtrackT (clock : ℕ → Bool) : ℕ → SState → (SState × Bool) × List Grid
  | 0, s => ((s, false), [])
  | fuel + 1, s =>
    if clock s.ticks then (({ s with timedOut := true }, false), [])
    else
      let s1 := { s with ticks := s.ticks + 1 }
      match findEmptyCell s1.grid with
      | none => ((s1, true), [])
      | some (r, c) => tryNumsT (backtrackT clock fuel) r c s1 nums1to9

/-- Variant of `solveRun` with the ghost trace. -/
def solveT (clock : ℕ → Bool) (g : Grid) : (SState × Bool) × List Grid :=
  backtrackT clock 82 { grid := g, timedOut := false, ticks := 0 }

/-! ### Specification-side predicates -/

/-- All cell values of the grid lie in the modelled range `[0, 9]`
(spec §3: "a 9×9 matrix of cell values in the closed range [0,9]"). -/
def boundedGrid (g : Grid) : Prop := ∀ r c, g r c ≤ 9

/-- The spec's grid invariant: among the non-zero values, no duplicates
in any row, any column, or any of the nine non-overlapping 3×3 boxes
(two cells of a common unit holding the same non-zero value coincide). -/
def validGrid (g : Grid) : Prop :=
  (∀ (r c₁ c₂ : Fin 9), g r c₁ ≠ 0 → g r c₁ = g r c₂ → c₁ = c₂) ∧
  (∀ (c r₁ r₂ : Fin 9), g r₁ c ≠ 0 → g r₁ c = g r₂ c → r₁ = r₂) ∧
  (∀ (r₁ c₁ r₂ c₂ : Fin 9), r₁.1 / 3 = r₂.1 / 3 → c₁.1 / 3 = c₂.1 / 3 →
    g r₁ c₁ ≠ 0 → g r₁ c₁ = g r₂ c₂ → r₁ = r₂ ∧ c₁ = c₂)

instance (g : Grid) : Decidable (boundedGrid g) := by
  unfold boundedGrid; infer_instance

instance (g : Grid) : Decidable (validGrid g) := by
  unfold validGrid; infer_instance

/-- Cell `(3b₁ + o₁, 3b₂ + o₂)` of box `(b₁, b₂)`. -/
def boxCell (b o : Fin 3) : Fin 9 :=
  ⟨3 * b.1 + o.1, by have hb := b.isLt; have ho := o.isLt; omega⟩

/-- A complete valid solution, stated as the spec words it: no cell is
0, and every row, every column, and every 3×3 box contains each of the
digits 1–9 exactly once (at exactly one position). -/
def solvedGrid (g : Grid) : Prop :=
  (∀ r c, g r c ≠ 0) ∧
  (∀ (r : Fin 9) (v : ℕ), 1 ≤ v → v ≤ 9 →
    ∃ c, g r c = v ∧ ∀ c2, g r c2 = v → c2 = c) ∧
  (∀ (c : Fin 9) (v : ℕ), 1 ≤ v → v ≤ 9 →
    ∃ r, g r c = v ∧ ∀ r2, g r2 c = v → r2 = r) ∧
  (∀ (b1 b2 : Fin 3) (v : ℕ), 1 ≤ v → v ≤ 9 →
    ∃ i j, g (boxCell b1 i) (boxCell b2 j) = v ∧
      ∀ i2 j2, g (boxCell b1 i2) (boxCell b2 j2) = v → i2 = i ∧ j2 = j)

/-- The safety predicate as the spec words it for `is_placement_safe`:
`v` occurs at no cell of row `r` other than `(r, c)`, at no cell of
column `c` other than `(r, c)`, and at no cell of the 3×3 box of
`(r, c)` other than `(r, c)` — the cell `(r, c)` itself not examined. -/
def placementFreeSpec (g : Grid) (r c : Fin 9) (v : ℕ) : Prop :=
  (∀ j, j ≠ c → g r j ≠ v) ∧
  (∀ i, i ≠ r → g i c ≠ v) ∧
  (∀ i j : Fin 9, i.1 / 3 = r.1 / 3 → j.1 / 3 = c.1 / 3 →
    ¬(i = r ∧ j = c) → g i j ≠ v)

instance (g : Grid) (r c : Fin 9) (v : ℕ) : Decidable (placementFreeSpec g r c v) := by
  unfold placementFreeSpec; infer_instance

/-- The character scan of a kept line as the spec words it: left to
right, `'.'` ↦ 0, a digit ↦ its value, anything else skipped. -/
def rowVals : List Char → List ℕ
  | [] => []
  | ch :: rest =>
    if ch = '.' then 0 :: rowVals rest
    else if ch.isDigit then (ch.toNat - '0'.toNat) :: rowVals rest
    else rowVals rest

/-- Reading of `construct_from_text` as the spec words it (claim C7): drop the
lines containing `"---"`, keep at most 9 of the rest, scan each kept
line into at most 9 values, and default every unsupplied cell to 0. -/
def construct_from_text_spec (cs : List Char) : Grid := fun r c =>
  (((((splitLines cs).filter fun l => !hasSep l).take 9).map
    fun l => (rowVals l).take 9).getD r.1 []).getD c.1 0

/-- Number of empty cells of the grid (the measure that makes the C++
recursion well-founded: every recursive call is made after a placement
into an empty cell). -/
def emptyCount (g : Grid) : ℕ :=
  (Finset.univ.filter fun p : Fin 9 × Fin 9 => g p.1 p.2 = 0).card

/-! ### Concrete grids and clocks used as witnesses and counterexamples -/

/-- A clock whose deadline never fires. -/
def clockNever : ℕ → Bool := fun _ => false

/-- A clock whose deadline has already passed at the first check. -/
def clockAlways : ℕ → Bool := fun _ => true

/-- A clock that fires from the second check on. -/
def clockAfter1 : ℕ → Bool := fun k => decide (1 ≤ k)

/-- The cyclic complete valid Sudoku solution. -/
def gSol : Grid := fun r c => (3 * (r.1 % 3) + r.1 / 3 + c.1) % 9 + 1

/-- Grid `gSol` with cell (0,0) (whose solution value is 1) emptied. -/
def gT : Grid := setCell gSol 0 0 0

/-- An unsolvable grid with exactly two empty cells `(0,7)` and `(0,8)`:
row 0 starts `1..7`, a 9 sits in column 7 and a 9 in column 8, so the
search places an 8 at `(0,7)`, fails at `(0,8)`, undoes, and exhausts. -/
def gEx : Grid := fun r c =>
  if r.1 = 0 then (if c.1 ≤ 6 then c.1 + 1 else 0)
  else if r.1 = 1 ∧ c.1 = 7 then 9
  else if r.1 = 2 ∧ c.1 = 8 then 9
  else 1

/-- The completely filled all-ones grid (an inconsistent input with no
empty cell). -/
def g1 : Grid := fun _ _ => 1

/-- An inconsistent input (two 1s in row 0) whose single empty cell
`(0,8)` still accepts a placement. -/
def gC5 : Grid := fun r c =>
  if r.1 = 0 then
    (if c.1 = 0 then 1 else if c.1 = 1 then 1 else if c.1 = 8 then 0 else c.1 + 1)
  else 2

/-- The grid holding a single 5 at `(0,0)`. -/
def g5 : Grid := fun r c => if r.1 = 0 ∧ c.1 = 0 then 5 else 0

/-- The pre-solve state on `gT` (start of a `solve` call). -/
def sT0 : SState := { grid := gT, timedOut := false, ticks := 0 }

/-- The state an immediately-firing deadline leaves behind after the
placement of 1 at `(0,0)` on `gT`: the placement is still in the grid
and the `timed_out` flag is set. -/
def sT2 : SState := { grid := setCell gT 0 0 1, timedOut := true, ticks := 0 }

/-! ### Basic lemmas on cells, `isSafe`, `findEmptyCell`, `emptyCount` -/

@[simp] theorem setCell_same (g : Grid) (r c : Fin 9) (v : ℕ) :
    setCell g r c v r c = v := by simp [setCell]

theorem setCell_other (g : Grid) (r c : Fin 9) (v : ℕ) {i j : Fin 9}
    (h : ¬(i = r ∧ j = c)) : setCell g r c v i j = g i j := by
  simp [setCell, h]

theorem setCell_setCell (g : Grid) (r c : Fin 9) (a b : ℕ) :
    setCell (setCell g r c a) r c b = setCell g r c b := by
  funext i j; by_cases h : i = r ∧ j = c <;> simp [setCell, h]

theorem setCell_eq_self (g : Grid) (r c : Fin 9) {v : ℕ} (h : g r c = v) :
    setCell g r c v = g := by
  funext i j
  by_cases hij : i = r ∧ j = c
  · obtain ⟨h1, h2⟩ := hij; subst h1; subst h2; simp [setCell, h]
  · simp [setCell, hij]

theorem isSafe_iff (g : Grid) (row col : Fin 9) (num : ℕ) :
    isSafe g row col num = true ↔
      (∀ j, g row j ≠ num) ∧ (∀ i, g i col ≠ num) ∧
      (∀ (i j : Fin 3), g (boxIdx row i) (boxIdx col j) ≠ num) := by
  simp [isSafe, and_assoc]

/-- The cells scanned by the box loop of `isSafe` are exactly the cells
whose row and column lie in the same box (same integer quotient by 3). -/
theorem boxIdx_cover (r : Fin 9) :
    (∀ i : Fin 3, (boxIdx r i).1 / 3 = r.1 / 3) ∧
    (∀ r2 : Fin 9, r2.1 / 3 = r.1 / 3 → ∃ i : Fin 3, boxIdx r i = r2) := by
  constructor
  · intro i
    have hr := r.isLt; have hi := i.isLt
    simp only [boxIdx]
    omega
  · intro r2 h
    have hr := r.isLt; have hr2 := r2.isLt
    refine ⟨⟨r2.1 % 3, by omega⟩, ?_⟩
    apply Fin.ext
    simp only [boxIdx]
    omega

/-- The box scan of `isSafe`, re-indexed over all cells of the box. -/
theorem isSafe_box (g : Grid) (row col : Fin 9) (num : ℕ)
    (hs : isSafe g row col num = true) :
    ∀ i j : Fin 9, i.1 / 3 = row.1 / 3 → j.1 / 3 = col.1 / 3 → g i j ≠ num := by
  intro i j hi hj
  obtain ⟨bi, hbi⟩ := (boxIdx_cover row).2 i hi
  obtain ⟨bj, hbj⟩ := (boxIdx_cover col).2 j hj
  have := ((isSafe_iff g row col num).mp hs).2.2 bi bj
  rwa [hbi, hbj] at this

theorem findEmptyAux_eq_none (g : Grid) :
    ∀ l : List (Fin 9), findEmptyAux g l = none → ∀ r ∈ l, ∀ c, g r c ≠ 0 := by
  intro l
  induction l with
  | nil => intro _ r hr; simp at hr
  | cons r' rs ih =>
    intro h r hr c
    rcases List.mem_cons.mp hr with h1 | h1
    · subst h1
      simp only [findEmptyAux] at h
      rcases hfind : (List.finRange 9).find? (fun c => g r c == 0) with _ | c0
      · have := List.find?_eq_none.mp hfind c (List.mem_finRange c)
        simpa using this
      · rw [hfind] at h; simp at h
    · simp only [findEmptyAux] at h
      rcases hfind : (List.finRange 9).find? (fun c => g r' c == 0) with _ | c0
      · rw [hfind] at h
        exact ih h r h1 c
      · rw [hfind] at h; simp at h

theorem findEmptyCell_eq_none (g : Grid) (h : findEmptyCell g = none) :
    ∀ r c, g r c ≠ 0 := fun r c =>
  findEmptyAux_eq_none g _ h r (List.mem_finRange r) c

theorem findEmptyAux_eq_some (g : Grid) :
    ∀ l : List (Fin 9), ∀ r c, findEmptyAux g l = some (r, c) → g r c = 0 := by
  intro l
  induction l with
  | nil => intro r c h; simp [findEmptyAux] at h
  | cons r' rs ih =>
    intro r c h
    simp only [findEmptyAux] at h
    rcases hfind : (List.finRange 9).find? (fun c => g r' c == 0) with _ | c0
    · rw [hfind] at h
      exact ih r c h
    · rw [hfind] at h
      simp only [Option.some.injEq, Prod.mk.injEq] at h
      obtain ⟨h1, h2⟩ := h
      have := List.find?_some hfind
      subst h1; subst h2
      simpa using this

theorem findEmptyCell_eq_some (g : Grid) (r c : Fin 9)
    (h : findEmptyCell g = some (r, c)) : g r c = 0 :=
  findEmptyAux_eq_some g _ r c h

theorem emptyCount_le_81 (g : Grid) : emptyCount g ≤ 81 := by
  have h := Finset.card_filter_le Finset.univ
    (fun p : Fin 9 × Fin 9 => g p.1 p.2 = 0)
  simpa [emptyCount] using h

theorem emptyCount_setCell (g : Grid) (r c : Fin 9) (n : ℕ)
    (h0 : g r c = 0) (hn : n ≠ 0) :
    emptyCount (setCell g r c n) + 1 = emptyCount g := by
  have hmem : (r, c) ∈ Finset.univ.filter (fun p : Fin 9 × Fin 9 => g p.1 p.2 = 0) := by
    simp [h0]
  have hset : (Finset.univ.filter fun p : Fin 9 × Fin 9 => setCell g r c n p.1 p.2 = 0) =
      (Finset.univ.filter fun p : Fin 9 × Fin 9 => g p.1 p.2 = 0).erase (r, c) := by
    ext p
    by_cases hp : p = (r, c)
    · subst hp
      simp [setCell, hn]
    · have hp' : ¬(p.1 = r ∧ p.2 = c) := by
        intro hc
        exact hp (Prod.ext hc.1 hc.2)
      simp [setCell, hp', hp]
  have hcard := Finset.card_erase_of_mem hmem
  have hpos : 0 < (Finset.univ.filter fun p : Fin 9 × Fin 9 => g p.1 p.2 = 0).card :=
    Finset.card_pos.mpr ⟨(r, c), hmem⟩
  simp only [emptyCount, hset, hcard]
  omega

/-! ### Validity preservation -/

/-- Placing a value that `isSafe` accepted into an empty cell preserves
the no-duplicates invariant. -/
theorem validGrid_setCell (g : Grid) (r c : Fin 9) (n : ℕ) (hv : validGrid g)
    (hs : isSafe g r c n = true) :
    validGrid (setCell g r c n) := by
  obtain ⟨hrow, hcol, _hbox⟩ := (isSafe_iff g r c n).mp hs
  have hbox := isSafe_box g r c n hs
  obtain ⟨hvr, hvc, hvb⟩ := hv
  refine ⟨?_, ?_, ?_⟩
  · intro r' c₁ c₂ hne heq
    by_cases hA : r' = r ∧ c₁ = c
    · obtain ⟨ha1, ha2⟩ := hA
      rw [ha1, ha2, setCell_same] at heq
      by_cases hB : c₂ = c
      · exact ha2.trans hB.symm
      · rw [setCell_other g r c n (fun h => hB h.2)] at heq
        exact absurd heq.symm (hrow c₂)
    · rw [setCell_other g r c n hA] at hne heq
      by_cases hB : r' = r ∧ c₂ = c
      · obtain ⟨hb1, hb2⟩ := hB
        simp only [hb1, hb2] at hne heq
        rw [setCell_same] at heq
        exact absurd heq (hrow c₁)
      · rw [setCell_other g r c n hB] at heq
        exact hvr r' c₁ c₂ hne heq
  · intro c' r₁ r₂ hne heq
    by_cases hA : r₁ = r ∧ c' = c
    · obtain ⟨ha1, ha2⟩ := hA
      rw [ha1, ha2, setCell_same] at heq
      by_cases hB : r₂ = r
      · exact ha1.trans hB.symm
      · rw [setCell_other g r c n (fun h => hB h.1)] at heq
        exact absurd heq.symm (hcol r₂)
    · rw [setCell_other g r c n hA] at hne heq
      by_cases hB : r₂ = r ∧ c' = c
      · obtain ⟨hb1, hb2⟩ := hB
        simp only [hb1, hb2] at hne heq
        rw [setCell_same] at heq
        exact absurd heq (hcol r₁)
      · rw [setCell_other g r c n hB] at heq
        exact hvc c' r₁ r₂ hne heq
  · intro r₁ c₁ r₂ c₂ hr3 hc3 hne heq
    by_cases hA : r₁ = r ∧ c₁ = c
    · obtain ⟨ha1, ha2⟩ := hA
      rw [ha1, ha2, setCell_same] at heq
      rw [ha1] at hr3
      rw [ha2] at hc3
      by_cases hB : r₂ = r ∧ c₂ = c
      · exact ⟨ha1.trans hB.1.symm, ha2.trans hB.2.symm⟩
      · rw [setCell_other g r c n hB] at heq
        exact absurd heq.symm (hbox r₂ c₂ hr3.symm hc3.symm)
    · rw [setCell_other g r c n hA] at hne heq
      by_cases hB : r₂ = r ∧ c₂ = c
      · obtain ⟨hb1, hb2⟩ := hB
        rw [hb1] at hr3
        rw [hb2] at hc3
        simp only [hb1, hb2] at heq
        rw [setCell_same] at heq
        exact absurd heq (hbox r₁ c₁ hr3 hc3)
      · rw [setCell_other g r c n hB] at heq
        exact hvb r₁ c₁ r₂ c₂ hr3 hc3 hne heq

/-- Clearing a cell preserves the no-duplicates invariant. -/
theorem validGrid_clear (g : Grid) (r c : Fin 9) (hv : validGrid g) :
    validGrid (setCell g r c 0) := by
  obtain ⟨hvr, hvc, hvb⟩ := hv
  refine ⟨?_, ?_, ?_⟩
  · intro r' c₁ c₂ hne heq
    by_cases hA : r' = r ∧ c₁ = c
    · obtain ⟨ha1, ha2⟩ := hA
      rw [ha1, ha2, setCell_same] at hne
      exact absurd rfl hne
    · rw [setCell_other g r c 0 hA] at hne heq
      by_cases hB : r' = r ∧ c₂ = c
      · obtain ⟨hb1, hb2⟩ := hB
        simp only [hb1, hb2] at hne heq
        rw [setCell_same] at heq
        exact absurd heq hne
      · rw [setCell_other g r c 0 hB] at heq
        exact hvr r' c₁ c₂ hne heq
  · intro c' r₁ r₂ hne heq
    by_cases hA : r₁ = r ∧ c' = c
    · obtain ⟨ha1, ha2⟩ := hA
      rw [ha1, ha2, setCell_same] at hne
      exact absurd rfl hne
    · rw [setCell_other g r c 0 hA] at hne heq
      by_cases hB : r₂ = r ∧ c' = c
      · obtain ⟨hb1, hb2⟩ := hB
        simp only [hb1, hb2] at hne heq
        rw [setCell_same] at heq
        exact absurd heq hne
      · rw [setCell_other g r c 0 hB] at heq
        exact hvc c' r₁ r₂ hne heq
  · intro r₁ c₁ r₂ c₂ hr3 hc3 hne heq
    by_cases hA : r₁ = r ∧ c₁ = c
    · obtain ⟨ha1, ha2⟩ := hA
      rw [ha1, ha2, setCell_same] at hne
      exact absurd rfl hne
    · rw [setCell_other g r c 0 hA] at hne heq
      by_cases hB : r₂ = r ∧ c₂ = c
      · obtain ⟨hb1, hb2⟩ := hB
        simp only [hb1, hb2] at hne heq
        rw [setCell_same] at heq
        exact absurd heq hne
      · rw [setCell_other g r c 0 hB] at heq
        exact hvb r₁ c₁ r₂ c₂ hr3 hc3 hne heq

/-- Placing a value `≤ 9` preserves the range invariant. -/
theorem boundedGrid_setCell (g : Grid) (r c : Fin 9) (n : ℕ)
    (hb : boundedGrid g) (hn : n ≤ 9) : boundedGrid (setCell g r c n) := by
  intro i j
  by_cases h : i = r ∧ j = c
  · rw [h.1, h.2, setCell_same]; exact hn
  · rw [setCell_other g r c n h]; exact hb i j

/-! ### From a complete valid bounded grid to "each digit exactly once" -/

/-- Pigeonhole on `Fin 9`: nine injective values in `[1, 9]` hit each
value of `[1, 9]` exactly once. -/
theorem exists_unique_fin9 (f : Fin 9 → ℕ) (hb : ∀ i, 1 ≤ f i ∧ f i ≤ 9)
    (hinj : ∀ i j, f i = f j → i = j) (v : ℕ) (h1 : 1 ≤ v) (h9 : v ≤ 9) :
    ∃ i, f i = v ∧ ∀ j, f j = v → j = i := by
  have hF : Function.Injective (fun i => (⟨f i - 1, by have := hb i; omega⟩ : Fin 9)) := by
    intro i j hij
    apply hinj
    have h1 := (hb i).1; have h2 := (hb j).1
    have := Fin.mk.injEq (f i - 1) _ (f j - 1) _ ▸ hij
    simp only [Fin.mk.injEq] at hij
    omega
  have hsurj := Finite.injective_iff_surjective.mp hF
  obtain ⟨i, hi⟩ := hsurj ⟨v - 1, by omega⟩
  simp only [Fin.mk.injEq] at hi
  have hfi : f i = v := by have := (hb i).1; omega
  exact ⟨i, hfi, fun j hj => hinj j i (by rw [hj, hfi])⟩

/-- Pigeonhole on `Fin 3 × Fin 3`: nine injective values in `[1, 9]`
hit each value of `[1, 9]` exactly once. -/
theorem exists_unique_fin33 (f : Fin 3 → Fin 3 → ℕ)
    (hb : ∀ i j, 1 ≤ f i j ∧ f i j ≤ 9)
    (hinj : ∀ i j i2 j2, f i j = f i2 j2 → i = i2 ∧ j = j2)
    (v : ℕ) (h1 : 1 ≤ v) (h9 : v ≤ 9) :
    ∃ i j, f i j = v ∧ ∀ i2 j2, f i2 j2 = v → i2 = i ∧ j2 = j := by
  have hF : Function.Injective
      (fun p : Fin 3 × Fin 3 => (⟨f p.1 p.2 - 1, by have := hb p.1 p.2; omega⟩ : Fin 9)) := by
    intro p q hpq
    simp only [Fin.mk.injEq] at hpq
    have h1 := (hb p.1 p.2).1; have h2 := (hb q.1 q.2).1
    have : f p.1 p.2 = f q.1 q.2 := by omega
    obtain ⟨e1, e2⟩ := hinj _ _ _ _ this
    exact Prod.ext e1 e2
  have hcard : Fintype.card (Fin 3 × Fin 3) = Fintype.card (Fin 9) := by simp
  have hbij := (Fintype.bijective_iff_injective_and_card _).mpr ⟨hF, hcard⟩
  obtain ⟨p, hp⟩ := hbij.surjective ⟨v - 1, by omega⟩
  simp only [Fin.mk.injEq] at hp
  have hfp : f p.1 p.2 = v := by have := (hb p.1 p.2).1; omega
  refine ⟨p.1, p.2, hfp, ?_⟩
  intro i2 j2 h
  have := @hF (i2, j2) p (by
    simp only [Fin.mk.injEq]
    rw [h, hfp])
  exact ⟨congrArg Prod.fst this, congrArg Prod.snd this⟩

theorem solvedGrid_of_complete (g : Grid) (hv : validGrid g)
    (hb : boundedGrid g) (hc : ∀ r c, g r c ≠ 0) : solvedGrid g := by
  obtain ⟨hvr, hvc, hvb⟩ := hv
  have hrange : ∀ r c, 1 ≤ g r c ∧ g r c ≤ 9 := fun r c =>
    ⟨Nat.one_le_iff_ne_zero.mpr (hc r c), hb r c⟩
  refine ⟨hc, ?_, ?_, ?_⟩
  · intro r v h1 h9
    exact exists_unique_fin9 (fun c => g r c) (fun c => hrange r c)
      (fun c₁ c₂ h => hvr r c₁ c₂ (hc r c₁) h) v h1 h9
  · intro c v h1 h9
    exact exists_unique_fin9 (fun r => g r c) (fun r => hrange r c)
      (fun r₁ r₂ h => hvc c r₁ r₂ (hc r₁ c) h) v h1 h9
  · intro b1 b2 v h1 h9
    have hbox1 : ∀ (b x : Fin 3), (boxCell b x).1 / 3 = b.1 := by
      intro b x; have := x.isLt; have := b.isLt; simp only [boxCell]; omega
    have hbcinj : ∀ (b x y : Fin 3), boxCell b x = boxCell b y → x = y := by
      intro b x y h
      have := congrArg Fin.val h
      simp only [boxCell] at this
      exact Fin.ext (by omega)
    exact exists_unique_fin33 (fun i j => g (boxCell b1 i) (boxCell b2 j))
      (fun i j => hrange _ _)
      (fun i j i2 j2 h => by
        have heq := hvb _ _ _ _ (by rw [hbox1, hbox1]) (by rw [hbox1, hbox1])
          (hc _ _) h
        exact ⟨hbcinj b1 i i2 heq.1, hbcinj b2 j j2 heq.2⟩)
      v h1 h9

/-! ### Search engine lemmas

Each loop lemma is stated for `tryNums` with the recursive call
abstracted (`recur`), then instantiated for `backtrack` by induction on
the fuel. -/

@[simp] theorem placeState_grid (s : SState) (r c : Fin 9) (n : ℕ) :
    (placeState s r c n).grid = setCell s.grid r c n := rfl

@[simp] theorem placeState_timedOut (s : SState) (r c : Fin 9) (n : ℕ) :
    (placeState s r c n).timedOut = s.timedOut := rfl

@[simp] theorem placeState_ticks (s : SState) (r c : Fin 9) (n : ℕ) :
    (placeState s r c n).ticks = s.ticks := rfl

/-- The candidate loop never writes to a non-empty cell. -/
theorem tryNums_preserve (recur : SState → SState × Bool)
    (hrec : ∀ s s' b, recur s = (s', b) → ∀ i j, s.grid i j ≠ 0 → s'.grid i j = s.grid i j)
    (r c : Fin 9) :
    ∀ (l : List ℕ) (s s' : SState) (b : Bool),
      tryNums recur r c s l = (s', b) → s.grid r c = 0 →
      ∀ i j, s.grid i j ≠ 0 → s'.grid i j = s.grid i j := by
  intro l
  induction l with
  | nil =>
    intro s s' b h h0 i j hij
    simp only [tryNums] at h
    injection h with h1 h2
    subst h1
    rfl
  | cons n rest ih =>
    intro s s' b h h0 i j hij
    have hne : ¬(i = r ∧ j = c) := fun hq => hij (by rw [hq.1, hq.2]; exact h0)
    simp only [tryNums] at h
    split at h
    · split at h
      · next s2 heq =>
        injection h with h1 h2
        subst h1
        have hplaced : (placeState s r c n).grid i j = s.grid i j := by
          simp only [placeState_grid]
          exact setCell_other _ _ _ _ hne
        have hrw := hrec _ _ _ heq i j (by rw [hplaced]; exact hij)
        rw [hrw, hplaced]
      · next s2 heq =>
        have hplaced : (placeState s r c n).grid i j = s.grid i j := by
          simp only [placeState_grid]
          exact setCell_other _ _ _ _ hne
        have hs2 : s2.grid i j = s.grid i j := by
          have hrw := hrec _ _ _ heq i j (by rw [hplaced]; exact hij)
          rw [hrw, hplaced]
        split at h
        · injection h with h1 h2
          subst h1
          exact hs2
        · have h3 : (placeState s2 r c 0).grid i j = s.grid i j := by
            simp only [placeState_grid]
            rw [setCell_other _ _ _ _ hne]
            exact hs2
          have hrw := ih (placeState s2 r c 0) s' b h (by simp) i j
            (by rw [h3]; exact hij)
          rw [hrw, h3]
    · exact ih s s' b h h0 i j hij

/-- Lemma: `backtrack` never writes to a non-empty cell: the givens survive. -/
theorem backtrack_preserve (clock : ℕ → Bool) :
    ∀ (fuel : ℕ) (s s' : SState) (b : Bool), backtrack clock fuel s = (s', b) →
      ∀ i j, s.grid i j ≠ 0 → s'.grid i j = s.grid i j := by
  intro fuel
  induction fuel with
  | zero =>
    intro s s' b h i j hij
    simp only [backtrack] at h
    injection h with h1 h2
    subst h1
    rfl
  | succ fuel ih =>
    intro s s' b h i j hij
    simp only [backtrack] at h
    split at h
    · injection h with h1 h2
      subst h1
      rfl
    · split at h
      · injection h with h1 h2
        subst h1
        rfl
      · next r c heq =>
        have h0 : ({ s with ticks := s.ticks + 1 } : SState).grid r c = 0 :=
          findEmptyCell_eq_some _ r c heq
        exact tryNums_preserve (backtrack clock fuel) (fun s s' b hh => ih s s' b hh)
          r c nums1to9 _ s' b h h0 i j hij

/-- If the candidate loop fails without a timeout, every placement has
been undone: the grid is exactly the entry grid. -/
theorem tryNums_restore (recur : SState → SState × Bool)
    (hrec : ∀ s s', recur s = (s', false) → s'.timedOut = false → s'.grid = s.grid)
    (r c : Fin 9) :
    ∀ (l : List ℕ) (s s' : SState),
      tryNums recur r c s l = (s', false) → s.grid r c = 0 → s'.timedOut = false →
      s'.grid = s.grid := by
  intro l
  induction l with
  | nil =>
    intro s s' h h0 hto
    simp only [tryNums] at h
    injection h with h1 h2
    subst h1
    rfl
  | cons n rest ih =>
    intro s s' h h0 hto
    simp only [tryNums] at h
    split at h
    · split at h
      · next s2 heq =>
        injection h with h1 h2
        exact Bool.noConfusion h2
      · next s2 heq =>
        split at h
        · next hto2 =>
          injection h with h1 h2
          subst h1
          rw [hto] at hto2
          exact Bool.noConfusion hto2
        · next hto2 =>
          have hto2' : s2.timedOut = false := by
            revert hto2; cases s2.timedOut <;> simp
          have hs2 : s2.grid = (placeState s r c n).grid := hrec _ _ heq hto2'
          have hrw := ih (placeState s2 r c 0) s' h (by simp) hto
          rw [hrw]
          simp only [placeState_grid]
          rw [hs2]
          simp only [placeState_grid]
          rw [setCell_setCell]
          exact setCell_eq_self _ _ _ h0
    · exact ih s s' h h0 hto

/-- If `backtrack` fails without a timeout, the grid is exactly the
entry grid. -/
theorem backtrack_restore (clock : ℕ → Bool) :
    ∀ (fuel : ℕ) (s s' : SState), backtrack clock fuel s = (s', false) →
      s'.timedOut = false → s'.grid = s.grid := by
  intro fuel
  induction fuel with
  | zero =>
    intro s s' h hto
    simp only [backtrack] at h
    injection h with h1 h2
    subst h1
    rfl
  | succ fuel ih =>
    intro s s' h hto
    simp only [backtrack] at h
    split at h
    · injection h with h1 h2
      subst h1
      exact Bool.noConfusion hto
    · split at h
      · injection h with h1 h2
        exact Bool.noConfusion h2
      · next r c heq =>
        exact tryNums_restore (backtrack clock fuel) (fun s s' hh => ih s s' hh)
          r c nums1to9 { s with ticks := s.ticks + 1 } s' h
          (findEmptyCell_eq_some _ r c heq) hto

/-- A successful return never carries the `timed_out` flag (starting
from an un-timed-out state). -/
theorem tryNums_flag (recur : SState → SState × Bool)
    (hrec : ∀ s s', s.timedOut = false → recur s = (s', true) → s'.timedOut = false)
    (r c : Fin 9) :
    ∀ (l : List ℕ) (s s' : SState), s.timedOut = false →
      tryNums recur r c s l = (s', true) → s'.timedOut = false := by
  intro l
  induction l with
  | nil =>
    intro s s' hs h
    simp only [tryNums] at h
    injection h with h1 h2
    exact Bool.noConfusion h2
  | cons n rest ih =>
    intro s s' hs h
    simp only [tryNums] at h
    split at h
    · split at h
      · next s2 heq =>
        injection h with h1 h2
        subst h1
        exact hrec _ _ (by simpa using hs) heq
      · next s2 heq =>
        split at h
        · injection h with h1 h2
          exact Bool.noConfusion h2
        · next hto2 =>
          have hto2' : s2.timedOut = false := by
            revert hto2; cases s2.timedOut <;> simp
          exact ih (placeState s2 r c 0) s' (by simpa using hto2') h
    · exact ih s s' hs h

/-- Lemma: `backtrack` never returns `true` with the `timed_out` flag set. -/
theorem backtrack_flag (clock : ℕ → Bool) :
    ∀ (fuel : ℕ) (s s' : SState), s.timedOut = false →
      backtrack clock fuel s = (s', true) → s'.timedOut = false := by
  intro fuel
  induction fuel with
  | zero =>
    intro s s' hs h
    simp only [backtrack] at h
    injection h with h1 h2
    exact Bool.noConfusion h2
  | succ fuel ih =>
    intro s s' hs h
    simp only [backtrack] at h
    split at h
    · injection h with h1 h2
      exact Bool.noConfusion h2
    · split at h
      · injection h with h1 h2
        subst h1
        exact hs
      · next r c heq =>
        exact tryNums_flag (backtrack clock fuel) (fun s s' hh1 hh2 => ih s s' hh1 hh2)
          r c nums1to9 { s with ticks := s.ticks + 1 } s' hs h

/-- The candidate loop keeps the grid valid and bounded, and on success
the grid is complete. -/
theorem tryNums_valid (recur : SState → SState × Bool)
    (hrec : ∀ s s' b, recur s = (s', b) → validGrid s.grid → boundedGrid s.grid →
      validGrid s'.grid ∧ boundedGrid s'.grid ∧
        (b = true → ∀ i j, s'.grid i j ≠ 0))
    (r c : Fin 9) :
    ∀ (l : List ℕ) (s s' : SState) (b : Bool), tryNums recur r c s l = (s', b) →
      validGrid s.grid → boundedGrid s.grid → (∀ n ∈ l, n ≤ 9) →
      validGrid s'.grid ∧ boundedGrid s'.grid ∧
        (b = true → ∀ i j, s'.grid i j ≠ 0) := by
  intro l
  induction l with
  | nil =>
    intro s s' b h hv hb hl
    simp only [tryNums] at h
    injection h with h1 h2
    subst h1
    subst h2
    exact ⟨hv, hb, fun hh => Bool.noConfusion hh⟩
  | cons n rest ih =>
    intro s s' b h hv hb hl
    simp only [tryNums] at h
    split at h
    · next hsafe =>
      have hpv : validGrid (placeState s r c n).grid := by
        simp only [placeState_grid]
        exact validGrid_setCell _ _ _ _ hv hsafe
      have hpb : boundedGrid (placeState s r c n).grid := by
        simp only [placeState_grid]
        exact boundedGrid_setCell _ _ _ _ hb (hl n (List.mem_cons_self n rest))
      split at h
      · next s2 heq =>
        injection h with h1 h2
        subst h1
        subst h2
        have hs2 := hrec _ _ _ heq hpv hpb
        exact ⟨hs2.1, hs2.2.1, fun _ => hs2.2.2 rfl⟩
      · next s2 heq =>
        have hs2 := hrec _ _ _ heq hpv hpb
        split at h
        · injection h with h1 h2
          subst h1
          subst h2
          exact ⟨hs2.1, hs2.2.1, fun hh => Bool.noConfusion hh⟩
        · exact ih (placeState s2 r c 0) s' b h
            (by simp only [placeState_grid]; exact validGrid_clear _ _ _ hs2.1)
            (by simp only [placeState_grid]
                exact boundedGrid_setCell _ _ _ _ hs2.2.1 (by omega))
            (fun n' hn' => hl n' (List.mem_cons_of_mem _ hn'))
    · exact ih s s' b h hv hb (fun n' hn' => hl n' (List.mem_cons_of_mem _ hn'))

/-- Lemma: `backtrack` keeps the grid valid and bounded; when it returns
`true`, the final grid is complete. -/
theorem backtrack_valid (clock : ℕ → Bool) :
    ∀ (fuel : ℕ) (s s' : SState) (b : Bool), backtrack clock fuel s = (s', b) →
      validGrid s.grid → boundedGrid s.grid →
      validGrid s'.grid ∧ boundedGrid s'.grid ∧
        (b = true → ∀ i j, s'.grid i j ≠ 0) := by
  intro fuel
  induction fuel with
  | zero =>
    intro s s' b h hv hb
    simp only [backtrack] at h
    injection h with h1 h2
    subst h1
    subst h2
    exact ⟨hv, hb, fun hh => Bool.noConfusion hh⟩
  | succ fuel ih =>
    intro s s' b h hv hb
    simp only [backtrack] at h
    split at h
    · injection h with h1 h2
      subst h1
      subst h2
      exact ⟨hv, hb, fun hh => Bool.noConfusion hh⟩
    · split at h
      · next heq =>
        injection h with h1 h2
        subst h1
        subst h2
        exact ⟨hv, hb, fun _ => findEmptyCell_eq_none _ heq⟩
      · next r c heq =>
        exact tryNums_valid (backtrack clock fuel)
          (fun s s' b hh => ih s s' b hh) r c nums1to9
          { s with ticks := s.ticks + 1 } s' b h hv hb (by decide)

/-- The candidate loop is insensitive to the choice of recursive call
as long as the two calls agree below the entry's empty-cell count. -/
theorem tryNums_ext (recur1 recur2 : SState → SState × Bool) (E : ℕ)
    (h1res : ∀ s s', recur1 s = (s', false) → s'.timedOut = false → s'.grid = s.grid)
    (hagree : ∀ s, emptyCount s.grid < E → recur1 s = recur2 s)
    (r c : Fin 9) :
    ∀ (l : List ℕ) (s : SState), s.grid r c = 0 → (∀ n ∈ l, n ≠ 0) →
      emptyCount s.grid = E →
      tryNums recur1 r c s l = tryNums recur2 r c s l := by
  intro l
  induction l with
  | nil => intro s h0 hl hE; rfl
  | cons n rest ih =>
    intro s h0 hl hE
    simp only [tryNums]
    by_cases hsafe : isSafe s.grid r c n = true
    · rw [if_pos hsafe, if_pos hsafe]
      have hlt : emptyCount (placeState s r c n).grid < E := by
        have := emptyCount_setCell s.grid r c n h0 (hl n (List.mem_cons_self n rest))
        simp only [placeState_grid]
        omega
      rw [← hagree (placeState s r c n) hlt]
      cases hcall : recur1 (placeState s r c n) with
      | mk s2 b =>
        cases b with
        | true => rfl
        | false =>
          show (if s2.timedOut = true then (s2, false)
              else tryNums recur1 r c (placeState s2 r c 0) rest) =
            (if s2.timedOut = true then (s2, false)
              else tryNums recur2 r c (placeState s2 r c 0) rest)
          by_cases hto : s2.timedOut = true
          · rw [if_pos hto, if_pos hto]
          · rw [if_neg hto, if_neg hto]
            have hto' : s2.timedOut = false := by
              revert hto; cases s2.timedOut <;> simp
            have hs2 : s2.grid = (placeState s r c n).grid := h1res _ _ hcall hto'
            have hEq : emptyCount (placeState s2 r c 0).grid = E := by
              have hgr : (placeState s2 r c 0).grid = s.grid := by
                simp only [placeState_grid]
                rw [hs2]
                simp only [placeState_grid]
                rw [setCell_setCell]
                exact setCell_eq_self _ _ _ h0
              rw [hgr, hE]
            exact ih (placeState s2 r c 0) (by simp)
              (fun n' hn' => hl n' (List.mem_cons_of_mem _ hn')) hEq
    · rw [if_neg hsafe, if_neg hsafe]
      exact ih s h0 (fun n' hn' => hl n' (List.mem_cons_of_mem _ hn')) hE

/-- Fuel irrelevance: any two fuels above the number of empty cells give
the same run of `backtrack` — the C++ recursion, whose depth is the
number of empty cells, never needs more. -/
theorem backtrack_ext (clock : ℕ → Bool) :
    ∀ (f1 f2 : ℕ) (s : SState), emptyCount s.grid < f1 → emptyCount s.grid < f2 →
      backtrack clock f1 s = backtrack clock f2 s := by
  intro f1
  induction f1 with
  | zero => intro f2 s h1 h2; omega
  | succ f1 ih =>
    intro f2 s h1 h2
    cases f2 with
    | zero => omega
    | succ f2 =>
      simp only [backtrack]
      by_cases hc : clock s.ticks = true
      · rw [if_pos hc, if_pos hc]
      · rw [if_neg hc, if_neg hc]
        cases hfind : findEmptyCell ({ s with ticks := s.ticks + 1 } : SState).grid with
        | none => rfl
        | some p =>
          obtain ⟨r, c⟩ := p
          show tryNums (backtrack clock f1) r c _ nums1to9 =
            tryNums (backtrack clock f2) r c _ nums1to9
          apply tryNums_ext (backtrack clock f1) (backtrack clock f2)
            (emptyCount s.grid)
            (fun s s' hh hto => backtrack_restore clock f1 s s' hh hto)
            (fun s' hlt => ih f2 s' (by omega) (by omega))
            r c nums1to9 _ (findEmptyCell_eq_some _ r c hfind) (by decide) rfl

/-! ### Instrumented engine: equivalence and trace validity -/

/-- The run component of `tryNumsT` is `tryNums`. -/
theorem tryNumsT_fst (recurT : SState → (SState × Bool) × List Grid)
    (recur : SState → SState × Bool)
    (hrec : ∀ s, (recurT s).1 = recur s) (r c : Fin 9) :
    ∀ (l : List ℕ) (s : SState),
      (tryNumsT recurT r c s l).1 = tryNums recur r c s l := by
  intro l
  induction l with
  | nil => intro s; rfl
  | cons n rest ih =>
    intro s
    simp only [tryNumsT, tryNums]
    by_cases hsafe : isSafe s.grid r c n = true
    · rw [if_pos hsafe, if_pos hsafe]
      have hr := hrec (placeState s r c n)
      cases hcallT : recurT (placeState s r c n) with
      | mk p tr =>
        obtain ⟨s2, b⟩ := p
        rw [hcallT] at hr
        rw [← hr]
        cases b with
        | true => rfl
        | false =>
          show ((if s2.timedOut = true then ((s2, false), setCell s.grid r c n :: tr)
              else
                ((tryNumsT recurT r c (placeState s2 r c 0) rest).1,
                  setCell s.grid r c n :: tr ++ setCell s2.grid r c 0 ::
                    (tryNumsT recurT r c (placeState s2 r c 0) rest).2))).1 =
            (if s2.timedOut = true then (s2, false)
              else tryNums recur r c (placeState s2 r c 0) rest)
          by_cases hto : s2.timedOut = true
          · rw [if_pos hto, if_pos hto]
          · rw [if_neg hto, if_neg hto]
            exact ih (placeState s2 r c 0)
    · rw [if_neg hsafe, if_neg hsafe]
      exact ih s

/-- The run component of `backtrackT` is `backtrack`. -/
theorem backtrackT_fst (clock : ℕ → Bool) :
    ∀ (fuel : ℕ) (s : SState), (backtrackT clock fuel s).1 = backtrack clock fuel s := by
  intro fuel
  induction fuel with
  | zero => intro s; rfl
  | succ fuel ih =>
    intro s
    simp only [backtrackT, backtrack]
    by_cases hc : clock s.ticks = true
    · rw [if_pos hc, if_pos hc]
    · rw [if_neg hc, if_neg hc]
      cases hfind : findEmptyCell ({ s with ticks := s.ticks + 1 } : SState).grid with
      | none => rfl
      | some p =>
        obtain ⟨r, c⟩ := p
        exact tryNumsT_fst (backtrackT clock fuel) (backtrack clock fuel) ih
          r c nums1to9 _

/-- Every grid in the trace of the candidate loop — the grid after each
placement and after each undo — is valid and bounded, and so is the
final grid. -/
theorem tryNumsT_trace (recurT : SState → (SState × Bool) × List Grid)
    (hrec : ∀ s, validGrid s.grid → boundedGrid s.grid →
      (validGrid (recurT s).1.1.grid ∧ boundedGrid (recurT s).1.1.grid) ∧
        ∀ g' ∈ (recurT s).2, validGrid g' ∧ boundedGrid g')
    (r c : Fin 9) :
    ∀ (l : List ℕ) (s : SState), validGrid s.grid → boundedGrid s.grid →
      (∀ n ∈ l, n ≤ 9) →
      (validGrid (tryNumsT recurT r c s l).1.1.grid ∧
        boundedGrid (tryNumsT recurT r c s l).1.1.grid) ∧
      ∀ g' ∈ (tryNumsT recurT r c s l).2, validGrid g' ∧ boundedGrid g' := by
  intro l
  induction l with
  | nil =>
    intro s hv hb hl
    exact ⟨⟨hv, hb⟩, by simp [tryNumsT]⟩
  | cons n rest ih =>
    intro s hv hb hl
    by_cases hsafe : isSafe s.grid r c n = true
    · have hpv : validGrid (setCell s.grid r c n) :=
        validGrid_setCell _ _ _ _ hv hsafe
      have hpb : boundedGrid (setCell s.grid r c n) :=
        boundedGrid_setCell _ _ _ _ hb (hl n (List.mem_cons_self n rest))
      have hr := hrec (placeState s r c n) (by simpa using hpv) (by simpa using hpb)
      cases hcallT : recurT (placeState s r c n) with
      | mk p tr =>
        obtain ⟨s2, b⟩ := p
        rw [hcallT] at hr
        obtain ⟨⟨hs2v, hs2b⟩, htr⟩ := hr
        cases b with
        | true =>
          have hstep : tryNumsT recurT r c s (n :: rest) =
              ((s2, true), setCell s.grid r c n :: tr) := by
            simp only [tryNumsT]
            rw [if_pos hsafe, hcallT]
          rw [hstep]
          refine ⟨⟨hs2v, hs2b⟩, ?_⟩
          intro g' hg'
          rcases List.mem_cons.mp hg' with h1 | h1
          · subst h1; exact ⟨hpv, hpb⟩
          · exact htr g' h1
        | false =>
          have hstep : tryNumsT recurT r c s (n :: rest) =
              (if s2.timedOut = true then ((s2, false), setCell s.grid r c n :: tr)
               else ((tryNumsT recurT r c (placeState s2 r c 0) rest).1,
                 setCell s.grid r c n :: tr ++ setCell s2.grid r c 0 ::
                   (tryNumsT recurT r c (placeState s2 r c 0) rest).2)) := by
            simp only [tryNumsT]
            rw [if_pos hsafe, hcallT]
          rw [hstep]
          by_cases hto : s2.timedOut = true
          · rw [if_pos hto]
            refine ⟨⟨hs2v, hs2b⟩, ?_⟩
            intro g' hg'
            rcases List.mem_cons.mp hg' with h1 | h1
            · subst h1; exact ⟨hpv, hpb⟩
            · exact htr g' h1
          · rw [if_neg hto]
            have hudv : validGrid (setCell s2.grid r c 0) :=
              validGrid_clear _ _ _ hs2v
            have hudb : boundedGrid (setCell s2.grid r c 0) :=
              boundedGrid_setCell _ _ _ _ hs2b (by omega)
            have hih := ih (placeState s2 r c 0) (by simpa using hudv)
              (by simpa using hudb)
              (fun n' hn' => hl n' (List.mem_cons_of_mem _ hn'))
            refine ⟨hih.1, ?_⟩
            intro g' hg'
            rcases List.mem_cons.mp hg' with h1 | h1
            · subst h1; exact ⟨hpv, hpb⟩
            rcases List.mem_append.mp h1 with h2 | h2
            · exact htr g' h2
            rcases List.mem_cons.mp h2 with h3 | h3
            · subst h3; exact ⟨hudv, hudb⟩
            · exact hih.2 g' h3
    · have hstep : tryNumsT recurT r c s (n :: rest) = tryNumsT recurT r c s rest := by
        simp only [tryNumsT]
        rw [if_neg hsafe]
      rw [hstep]
      exact ih s hv hb (fun n' hn' => hl n' (List.mem_cons_of_mem _ hn'))

/-- Every grid in the trace of `backtrackT` is valid and bounded when
the entry grid is. -/
theorem backtrackT_trace (clock : ℕ → Bool) :
    ∀ (fuel : ℕ) (s : SState), validGrid s.grid → boundedGrid s.grid →
      (validGrid (backtrackT clock fuel s).1.1.grid ∧
        boundedGrid (backtrackT clock fuel s).1.1.grid) ∧
      ∀ g' ∈ (backtrackT clock fuel s).2, validGrid g' ∧ boundedGrid g' := by
  intro fuel
  induction fuel with
  | zero => intro s hv hb; exact ⟨⟨hv, hb⟩, by simp [backtrackT]⟩
  | succ fuel ih =>
    intro s hv hb
    simp only [backtrackT]
    by_cases hc : clock s.ticks = true
    · rw [if_pos hc]
      exact ⟨⟨hv, hb⟩, by simp⟩
    · rw [if_neg hc]
      cases hfind : findEmptyCell ({ s with ticks := s.ticks + 1 } : SState).grid with
      | none => exact ⟨⟨hv, hb⟩, by simp⟩
      | some p =>
        obtain ⟨r, c⟩ := p
        exact tryNumsT_trace (backtrackT clock fuel) (fun s hv hb => ih s hv hb)
          r c nums1to9 _ hv hb (by decide)

/-! ### Serialization lemmas -/

theorem rowChars_explicit (g : Grid) (i : Fin 9) :
    rowChars g i = [cellChar (g i 0), cellChar (g i 1), cellChar (g i 2), '|',
      cellChar (g i 3), cellChar (g i 4), cellChar (g i 5), '|',
      cellChar (g i 6), cellChar (g i 7), cellChar (g i 8)] := rfl

theorem toText_explicit (g : Grid) :
    toText g = rowChars g 0 ++ '\n' :: (rowChars g 1 ++ '\n' ::
      (rowChars g 2 ++ '\n' :: (dashLine ++ '\n' :: (rowChars g 3 ++ '\n' ::
      (rowChars g 4 ++ '\n' :: (rowChars g 5 ++ '\n' :: (dashLine ++ '\n' ::
      (rowChars g 6 ++ '\n' :: (rowChars g 7 ++ '\n' ::
      (rowChars g 8 ++ ['\n'])))))))))) := rfl

theorem cellChar_ne_nl {v : ℕ} (hv : v ≤ 9) : cellChar v ≠ '\n' := by
  interval_cases v <;> decide

theorem cellChar_ne_dash {v : ℕ} (hv : v ≤ 9) : cellChar v ≠ '-' := by
  interval_cases v <;> decide

theorem nl_not_mem_rowChars (g : Grid) (hb : boundedGrid g) (i : Fin 9) :
    '\n' ∉ rowChars g i := by
  intro hmem
  rw [rowChars_explicit] at hmem
  simp only [List.mem_cons, List.not_mem_nil, or_false] at hmem
  rcases hmem with h|h|h|h|h|h|h|h|h|h|h <;>
    first
      | exact cellChar_ne_nl (hb i _) h.symm
      | exact absurd h (by decide)

theorem dash_not_mem_rowChars (g : Grid) (hb : boundedGrid g) (i : Fin 9) :
    '-' ∉ rowChars g i := by
  intro hmem
  rw [rowChars_explicit] at hmem
  simp only [List.mem_cons, List.not_mem_nil, or_false] at hmem
  rcases hmem with h|h|h|h|h|h|h|h|h|h|h <;>
    first
      | exact cellChar_ne_dash (hb i _) h.symm
      | exact absurd h (by decide)

theorem splitLines_append (l : List Char) (rest : List Char) (h : '\n' ∉ l) :
    splitLines (l ++ '\n' :: rest) = l :: splitLines rest := by
  induction l with
  | nil => simp [splitLines]
  | cons a l ih =>
    have ha : a ≠ '\n' := fun hq => h (hq ▸ List.mem_cons_self a l)
    have hl : '\n' ∉ l := fun hq => h (List.mem_cons_of_mem a hq)
    simp only [List.cons_append, splitLines, List.append_eq]
    rw [if_neg ha, ih hl]

theorem hasSep_of_no_dash (l : List Char) (h : ∀ x ∈ l, x ≠ '-') :
    hasSep l = false := by
  induction l with
  | nil => rfl
  | cons c rest ih =>
    have hc : c ≠ '-' := h c (List.mem_cons_self c rest)
    simp only [hasSep, Bool.or_eq_false_iff]
    constructor
    · rw [beq_eq_false_iff_ne]
      intro hq
      rw [List.take_succ_cons] at hq
      exact hc (List.head_eq_of_cons_eq hq)
    · exact ih (fun x hx => h x (List.mem_cons_of_mem c hx))

theorem hasSep_rowChars (g : Grid) (hb : boundedGrid g) (i : Fin 9) :
    hasSep (rowChars g i) = false :=
  hasSep_of_no_dash _ (fun _x hx hq => dash_not_mem_rowChars g hb i (hq ▸ hx))

theorem hasSep_dashLine : hasSep dashLine = true := rfl

/-- The line structure of `toString`'s output: nine data rows with the
dashed separator line after the third and the sixth. -/
theorem splitLines_toText (g : Grid) (hb : boundedGrid g) :
    splitLines (toText g) =
      [rowChars g 0, rowChars g 1, rowChars g 2, dashLine,
       rowChars g 3, rowChars g 4, rowChars g 5, dashLine,
       rowChars g 6, rowChars g 7, rowChars g 8] := by
  have hd : '\n' ∉ dashLine := by decide
  have hr := nl_not_mem_rowChars g hb
  rw [toText_explicit]
  rw [splitLines_append _ _ (hr 0), splitLines_append _ _ (hr 1),
    splitLines_append _ _ (hr 2), splitLines_append _ _ hd,
    splitLines_append _ _ (hr 3), splitLines_append _ _ (hr 4),
    splitLines_append _ _ (hr 5), splitLines_append _ _ hd,
    splitLines_append _ _ (hr 6), splitLines_append _ _ (hr 7)]
  have : rowChars g 8 ++ ['\n'] = rowChars g 8 ++ '\n' :: [] := rfl
  rw [this, splitLines_append _ _ (hr 8)]
  rfl

theorem rowVals_cellChar (v : ℕ) (hv : v ≤ 9) (rest : List Char) :
    rowVals (cellChar v :: rest) = v :: rowVals rest := by
  interval_cases v <;> rfl

theorem rowVals_bar (rest : List Char) :
    rowVals ('|' :: rest) = rowVals rest := rfl

theorem rowVals_rowChars (g : Grid) (hb : boundedGrid g) (i : Fin 9) :
    rowVals (rowChars g i) =
      [g i 0, g i 1, g i 2, g i 3, g i 4, g i 5, g i 6, g i 7, g i 8] := by
  rw [rowChars_explicit]
  rw [rowVals_cellChar _ (hb i 0), rowVals_cellChar _ (hb i 1),
    rowVals_cellChar _ (hb i 2), rowVals_bar,
    rowVals_cellChar _ (hb i 3), rowVals_cellChar _ (hb i 4),
    rowVals_cellChar _ (hb i 5), rowVals_bar,
    rowVals_cellChar _ (hb i 6), rowVals_cellChar _ (hb i 7),
    rowVals_cellChar _ (hb i 8)]
  rfl

/-- Cell-level characterization of the character loop: scanning `l`
from column `col` writes the scanned values at columns
`col, col+1, …` (stopping at column 9) and touches nothing else. -/
theorem parseLine_val (i : ℕ) :
    ∀ (l : List Char) (col : ℕ) (g : Grid) (r c : Fin 9),
      parseLine i l col g r c =
        if r.1 = i ∧ col ≤ c.1 ∧ c.1 - col < (rowVals l).length ∧ c.1 < 9
        then (rowVals l).getD (c.1 - col) 0
        else g r c := by
  intro l
  induction l with
  | nil =>
    intro col g r c
    simp only [parseLine, rowVals, List.length_nil]
    rw [if_neg (by omega)]
  | cons ch rest ih =>
    intro col g r c
    simp only [parseLine]
    by_cases h9 : 9 ≤ col
    · rw [if_pos h9, if_neg (by omega)]
    · rw [if_neg h9]
      have key : ∀ v : ℕ, rowVals (ch :: rest) = v :: rowVals rest →
          parseLine i rest (col + 1) (setCellN g i col v) r c =
            (if r.1 = i ∧ col ≤ c.1 ∧ c.1 - col < (rowVals (ch :: rest)).length ∧ c.1 < 9
             then (rowVals (ch :: rest)).getD (c.1 - col) 0
             else g r c) := by
        intro v hrv
        rw [hrv, ih, List.length_cons]
        by_cases hr : r.1 = i
        · by_cases hceq : c.1 = col
          · rw [if_neg (by omega), if_pos ⟨hr, by omega, by omega, c.isLt⟩]
            rw [show c.1 - col = 0 by omega]
            simp [setCellN, hr, hceq]
          · by_cases hin : col + 1 ≤ c.1 ∧ c.1 - (col + 1) < (rowVals rest).length
            · rw [if_pos ⟨hr, hin.1, hin.2, c.isLt⟩, if_pos ⟨hr, by omega, by omega, c.isLt⟩]
              rw [show c.1 - col = (c.1 - (col + 1)) + 1 by omega, List.getD_cons_succ]
            · rw [if_neg (by omega), if_neg (by omega)]
              simp [setCellN, hceq]
        · rw [if_neg (by omega), if_neg (by omega)]
          simp [setCellN, hr]
      by_cases hdot : ch = '.'
      · rw [if_pos hdot]
        exact key 0 (by simp [rowVals, hdot])
      · rw [if_neg hdot]
        by_cases hdig : ch.isDigit = true
        · rw [if_pos hdig]
          exact key (ch.toNat - '0'.toNat) (by simp [rowVals, hdot, hdig])
        · rw [if_neg hdig]
          rw [ih]
          rw [show rowVals (ch :: rest) = rowVals rest by simp [rowVals, hdot, hdig]]

/-- Cell-level characterization of the line loop: row `r` of the result
comes from the `(r - i)`-th of the first `9 - i` kept lines, when
present and long enough, and from `g` otherwise. -/
theorem parseLines_val :
    ∀ (ls : List (List Char)) (i : ℕ) (g : Grid) (r c : Fin 9),
      parseLines ls i g r c =
        if i ≤ r.1 ∧ r.1 - i < ((ls.filter fun l => !hasSep l).take (9 - i)).length ∧
            c.1 < (rowVals (((ls.filter fun l => !hasSep l).take (9 - i)).getD (r.1 - i) [])).length
        then (rowVals (((ls.filter fun l => !hasSep l).take (9 - i)).getD (r.1 - i) [])).getD c.1 0
        else g r c := by
  intro ls
  induction ls with
  | nil =>
    intro i g r c
    simp only [parseLines, List.filter_nil, List.take_nil, List.length_nil]
    rw [if_neg (by omega)]
  | cons l ls ih =>
    intro i g r c
    simp only [parseLines]
    by_cases h9 : 9 ≤ i
    · rw [if_pos h9, if_neg (by have := r.isLt; omega)]
    · rw [if_neg h9]
      by_cases hsep : hasSep l = true
      · rw [if_pos hsep, List.filter_cons_of_neg (by simp [hsep])]
        exact ih i g r c
      · rw [if_neg hsep, List.filter_cons_of_pos (by simp [hsep]), ih,
          show 9 - i = (9 - (i + 1)) + 1 by omega, List.take_succ_cons,
          List.length_cons]
        by_cases hr : r.1 = i
        · rw [if_neg (by omega), parseLine_val,
            show r.1 - i = 0 by omega, List.getD_cons_zero]
          by_cases hcl : c.1 < (rowVals l).length
          · rw [if_pos ⟨hr, by omega, by omega, c.isLt⟩, if_pos ⟨by omega, by omega, hcl⟩]
            rw [show c.1 - 0 = c.1 by omega]
          · rw [if_neg (by omega), if_neg (by omega)]
        · by_cases hri : i + 1 ≤ r.1
          · rw [show r.1 - i = (r.1 - (i + 1)) + 1 by omega, List.getD_cons_succ]
            by_cases hcond : r.1 - (i + 1) <
                ((ls.filter fun l => !hasSep l).take (9 - (i + 1))).length ∧
                c.1 < (rowVals (((ls.filter fun l => !hasSep l).take (9 - (i + 1))).getD
                  (r.1 - (i + 1)) [])).length
            · rw [if_pos ⟨hri, hcond.1, hcond.2⟩, if_pos ⟨by omega, by omega, hcond.2⟩]
            · rw [if_neg (by omega), if_neg (by omega), parseLine_val,
                if_neg (by omega)]
          · rw [if_neg (by omega), parseLine_val, if_neg (by omega), if_neg (by omega)]

theorem getD_take9 (l : List ℕ) (n : ℕ) (hn : n < 9) :
    (l.take 9).getD n 0 = l.getD n 0 := by
  simp only [List.getD_eq_getElem?_getD]
  rw [List.getElem?_take, if_pos hn]

/-- Refinement: `construct_from_text` coincides with its specification reading
(claim C7): drop the separator lines, keep at most 9 lines, scan each
into at most 9 values, default everything else to 0. -/
theorem parse_eq_spec (cs : List Char) :
    construct_from_text cs = construct_from_text_spec cs := by
  funext r c
  rw [construct_from_text, construct_from_text_spec, parseLines_val]
  have h90 : (9 : ℕ) - 0 = 9 := rfl
  rw [h90, show r.1 - 0 = r.1 by omega]
  set kept := ((splitLines cs).filter fun l => !hasSep l).take 9 with hkept
  by_cases hrl : r.1 < kept.length
  · have hget : (kept.map fun l => (rowVals l).take 9).getD r.1 [] =
        (rowVals (kept.getD r.1 [])).take 9 := by
      rw [List.getD_eq_getElem?_getD, List.getElem?_map,
        List.getElem?_eq_getElem hrl]
      simp [List.getD_eq_getElem?_getD, List.getElem?_eq_getElem hrl]
    rw [hget]
    by_cases hcl : c.1 < (rowVals (kept.getD r.1 [])).length
    · rw [if_pos ⟨by omega, hrl, hcl⟩]
      rw [getD_take9 _ _ c.isLt]
    · rw [if_neg (by omega)]
      have h1 : ((rowVals (kept.getD r.1 [])).take 9).length ≤ c.1 := by
        have := List.length_take_le 9 (rowVals (kept.getD r.1 []))
        have h2 := List.length_take 9 (rowVals (kept.getD r.1 []))
        omega
      rw [List.getD_eq_default _ _ h1]
      rfl
  · rw [if_neg (by omega)]
    have hnone : (kept.map fun l => (rowVals l).take 9).getD r.1 [] = [] := by
      apply List.getD_eq_default
      simp only [List.length_map]
      omega
    rw [hnone]
    rfl

/-- Round trip: parsing the rendered text recovers the grid exactly,
for any grid with cell values in `[0, 9]`. -/
theorem roundtrip_aux (g : Grid) (hb : boundedGrid g) :
    construct_from_text (toText g) = g := by
  rw [parse_eq_spec]
  funext r c
  simp only [construct_from_text_spec]
  rw [splitLines_toText g hb]
  have hsr := hasSep_rowChars g hb
  rw [List.filter_cons_of_pos (by simp [hsr 0]),
    List.filter_cons_of_pos (by simp [hsr 1]),
    List.filter_cons_of_pos (by simp [hsr 2]),
    List.filter_cons_of_neg (by simp [hasSep_dashLine]),
    List.filter_cons_of_pos (by simp [hsr 3]),
    List.filter_cons_of_pos (by simp [hsr 4]),
    List.filter_cons_of_pos (by simp [hsr 5]),
    List.filter_cons_of_neg (by simp [hasSep_dashLine]),
    List.filter_cons_of_pos (by simp [hsr 6]),
    List.filter_cons_of_pos (by simp [hsr 7]),
    List.filter_cons_of_pos (by simp [hsr 8]),
    List.filter_nil]
  rw [show List.take 9 [rowChars g 0, rowChars g 1, rowChars g 2, rowChars g 3,
    rowChars g 4, rowChars g 5, rowChars g 6, rowChars g 7, rowChars g 8] =
    [rowChars g 0, rowChars g 1, rowChars g 2, rowChars g 3,
     rowChars g 4, rowChars g 5, rowChars g 6, rowChars g 7, rowChars g 8] from rfl]
  simp only [List.map_cons, List.map_nil]
  simp only [rowVals_rowChars g hb]
  fin_cases r <;> fin_cases c <;> rfl

/-! ### Outcome dispatch lemmas -/

theorem solveOutcome_eq_Solved (clock : ℕ → Bool) (g : Grid) :
    solveOutcome clock g = SolveOutcome.Solved ↔ (solveRun clock g).2 = true := by
  simp only [solveOutcome]
  rcases h2 : (solveRun clock g).2
  · rcases hto : (solveRun clock g).1.timedOut <;> simp [h2, hto]
  · simp [h2]

theorem solveOutcome_eq_Exhausted (clock : ℕ → Bool) (g : Grid) :
    solveOutcome clock g = SolveOutcome.Exhausted ↔
      (solveRun clock g).2 = false ∧ (solveRun clock g).1.timedOut = false := by
  simp only [solveOutcome]
  rcases h2 : (solveRun clock g).2
  · rcases hto : (solveRun clock g).1.timedOut <;> simp [h2, hto]
  · simp [h2]

/-- The ghost-traced run is the run. -/
theorem solveT_fst (clock : ℕ → Bool) (g : Grid) :
    (solveT clock g).1 = solveRun clock g :=
  backtrackT_fst clock 82 _

/-! ### Claim theorems -/

/-- C1 (amended): for every input grid that is a valid partial grid
(cell values in `[0,9]`, no duplicate non-zero value in any row, column
or box), if the top-level solve returns `Solved` then the grid
afterwards holds a complete valid solution: no cell is 0 and every row,
column and 3×3 box contains each digit 1–9 exactly once. -/
theorem solve_solved_complete_valid (clock : ℕ → Bool) (g : Grid)
    (hv : validGrid g) (hb : boundedGrid g)
    (hs : solveOutcome clock g = SolveOutcome.Solved) :
    solvedGrid (solveRun clock g).1.grid := by
  have h2 : (solveRun clock g).2 = true := (solveOutcome_eq_Solved clock g).mp hs
  have hval := backtrack_valid clock 82 { grid := g, timedOut := false, ticks := 0 }
    (solveRun clock g).1 (solveRun clock g).2 rfl hv hb
  exact solvedGrid_of_complete _ hval.1 hval.2.1 (hval.2.2 h2)

/-- Witness for C1: on the valid one-hole grid `gT` the solver returns
`Solved` and the final grid is a complete valid solution. -/
theorem solve_solved_complete_valid_witness :
    validGrid gT ∧ boundedGrid gT ∧
    solveOutcome clockNever gT = SolveOutcome.Solved ∧
    solvedGrid (solveRun clockNever gT).1.grid :=
  ⟨by decide, by decide, by decide,
    solve_solved_complete_valid clockNever gT (by decide) (by decide) (by decide)⟩

/-- Counterexample to C1 as stated (for *every* input grid): on the
all-ones grid (no empty cell, row 0 holds nine 1s) `solve` returns
`Solved`, yet the final grid is not a valid solution. -/
theorem solve_solved_invalid_input_cex :
    solveOutcome clockNever g1 = SolveOutcome.Solved ∧
    ¬ solvedGrid (solveRun clockNever g1).1.grid := by
  constructor
  · decide
  · intro h
    obtain ⟨c, hc, _⟩ := h.2.1 0 2 (by omega) (by omega)
    have hg : (solveRun clockNever g1).1.grid = g1 := by decide
    rw [hg] at hc
    simp [g1] at hc

/-- C2 (amended): `isSafe(row, col, v)` returns true iff `v` occurs
nowhere in row `row`, nowhere in column `col`, and nowhere in the 3×3
box of `(row, col)` — the cell `(row, col)` itself included in all
three scans. -/
theorem isSafe_scans_whole_units (g : Grid) (r c : Fin 9) (v : ℕ) :
    isSafe g r c v = true ↔
      (∀ j, g r j ≠ v) ∧ (∀ i, g i c ≠ v) ∧
      (∀ i j : Fin 9, i.1 / 3 = r.1 / 3 → j.1 / 3 = c.1 / 3 → g i j ≠ v) := by
  rw [isSafe_iff]
  constructor
  · rintro ⟨h1, h2, h3⟩
    refine ⟨h1, h2, fun i j hi hj => ?_⟩
    obtain ⟨bi, hbi⟩ := (boxIdx_cover r).2 i hi
    obtain ⟨bj, hbj⟩ := (boxIdx_cover c).2 j hj
    rw [← hbi, ← hbj]
    exact h3 bi bj
  · rintro ⟨h1, h2, h3⟩
    exact ⟨h1, h2, fun bi bj => h3 _ _ ((boxIdx_cover r).1 bi) ((boxIdx_cover c).1 bj)⟩

/-- Counterexample to C2 as stated: on the grid holding a single 5 at
`(0,0)`, the value 5 occurs nowhere in row 0, column 0 or the top-left
box *other than* at `(0,0)` itself, so the claim predicts
`is_placement_safe(0,0,5) = true`; the code scans the cell's own value
and returns false. -/
theorem isSafe_own_cell_cex :
    placementFreeSpec g5 0 0 5 ∧ isSafe g5 0 0 5 = false := by
  constructor
  · decide
  · decide

/-- C3 (amended): on `Exhausted` the grid is restored to its exact
pre-solve contents (every placement is undone on the failure path); on
`TimedOut` the partially-assigned cells reached by the search are left
in the grid, concretely: the timed-out run on `gT` leaves the placement
of 1 at the emptied cell `(0,0)` in place. -/
theorem solve_frame_outcome :
    (∀ (clock : ℕ → Bool) (g : Grid),
      solveOutcome clock g = SolveOutcome.Exhausted →
      (solveRun clock g).1.grid = g) ∧
    (solveOutcome clockAfter1 gT = SolveOutcome.TimedOut ∧
      (solveRun clockAfter1 gT).1.grid ≠ gT ∧
      (solveRun clockAfter1 gT).1.grid 0 0 = 1 ∧ gT 0 0 = 0) := by
  constructor
  · intro clock g hex
    obtain ⟨h2, hto⟩ := (solveOutcome_eq_Exhausted clock g).mp hex
    have hrun : backtrack clock 82 { grid := g, timedOut := false, ticks := 0 } =
        ((solveRun clock g).1, false) := by
      have heta : solveRun clock g = ((solveRun clock g).1, (solveRun clock g).2) := rfl
      rw [h2] at heta
      exact heta
    exact backtrack_restore clock 82 _ _ hrun hto
  · exact ⟨by decide, by decide, by decide, by decide⟩

/-- Witness for C3: the exhausted run on `gEx` (which places an 8 at
`(0,7)` and undoes it) returns `Exhausted` with the grid equal to the
input. -/
theorem solve_frame_outcome_witness :
    solveOutcome clockNever gEx = SolveOutcome.Exhausted ∧
    (solveRun clockNever gEx).1.grid = gEx :=
  ⟨by decide, solve_frame_outcome.1 clockNever gEx (by decide)⟩

/-- Counterexample to C3 as stated: on `gEx` the search places a value
and `solve` returns `Exhausted`, yet the grid after the call *is*
restored to its pre-solve contents, not left partially assigned. -/
theorem exhausted_grid_restored_cex :
    solveOutcome clockNever gEx = SolveOutcome.Exhausted ∧
    (solveRun clockNever gEx).1.grid = gEx ∧
    isSafe gEx 0 7 8 = true := by
  refine ⟨by decide, by decide, by decide⟩

/-- C4: parsing the text produced by `to_text` yields the original
grid, for every grid whose cells lie in `[0, 9]`. -/
theorem toText_roundtrip (g : Grid) (hb : boundedGrid g) :
    construct_from_text (toText g) = g :=
  roundtrip_aux g hb

/-- Witness for C4: round trip on the one-hole grid `gT` (which
contains both digits and an empty cell). -/
theorem toText_roundtrip_witness :
    boundedGrid gT ∧ construct_from_text (toText gT) = gT :=
  ⟨by decide, toText_roundtrip gT (by decide)⟩

/-- C5 (amended): during a solve call on a valid partial grid, at every
point of the search — after each placement made by the engine and after
each undo — the non-zero values in each row, column and box contain no
duplicates.  The traced run is the run itself. -/
theorem search_invariant (clock : ℕ → Bool) (g : Grid)
    (hv : validGrid g) (hb : boundedGrid g) :
    (solveT clock g).1 = solveRun clock g ∧
    ∀ g' ∈ (solveT clock g).2, validGrid g' := by
  refine ⟨solveT_fst clock g, fun g' hg' => ?_⟩
  exact ((backtrackT_trace clock 82 _ hv hb).2 g' hg').1

/-- Witness for C5: the solve on the valid one-hole grid `gT` traces
only valid grids. -/
theorem search_invariant_witness :
    validGrid gT ∧ boundedGrid gT ∧
    (∀ g' ∈ (solveT clockNever gT).2, validGrid g') :=
  ⟨by decide, by decide, (search_invariant clockNever gT (by decide) (by decide)).2⟩

/-- Counterexample to C5 as stated (for *every* solve call): on the
inconsistent input `gC5` (two 1s in row 0) the engine places a 9 at
`(0,8)`, and the traced grid after that placement still has duplicate
non-zero values — the invariant does not hold for inconsistent
inputs. -/
theorem search_invariant_cex :
    ¬ ∀ g' ∈ (solveT clockNever gC5).2, validGrid g' := by
  decide

/-- C6: when the deadline fires inside a recursive call, the candidate
loop propagates the failure immediately: the result is exactly the
state returned by the recursive call (no further candidate is tried, no
undo is performed), the placement in progress remains in the grid, and
the top-level call reports the timeout by returning false with the
`timed_out` flag set. -/
theorem timeout_propagates :
    (∀ (clock : ℕ → Bool) (fuel : ℕ) (s s2 : SState) (r c : Fin 9)
      (n : ℕ) (rest : List ℕ),
      isSafe s.grid r c n = true → n ≠ 0 →
      backtrack clock fuel (placeState s r c n) = (s2, false) →
      s2.timedOut = true →
      tryNums (backtrack clock fuel) r c s (n :: rest) = (s2, false) ∧
        s2.grid r c = n) ∧
    (∀ (clock : ℕ → Bool) (g : Grid), (solveRun clock g).1.timedOut = true →
      (solveRun clock g).2 = false) := by
  constructor
  · intro clock fuel s s2 r c n rest hsafe hn hcall hto
    constructor
    · simp only [tryNums]
      rw [if_pos hsafe, hcall]
      show (if s2.timedOut = true then (s2, false)
          else tryNums (backtrack clock fuel) r c (placeState s2 r c 0) rest) =
        (s2, false)
      rw [if_pos hto]
    · have hp := backtrack_preserve clock fuel _ _ _ hcall r c
        (by simp [hn])
      rw [hp]
      simp
  · intro clock g hto
    by_contra hb2
    have h2 : (solveRun clock g).2 = true := by
      revert hb2
      cases (solveRun clock g).2 <;> simp
    have hrun : backtrack clock 82 { grid := g, timedOut := false, ticks := 0 } =
        ((solveRun clock g).1, true) := by
      have heta : solveRun clock g = ((solveRun clock g).1, (solveRun clock g).2) := rfl
      rw [h2] at heta
      exact heta
    have hf := backtrack_flag clock 82 _ _ rfl hrun
    rw [hf] at hto
    exact Bool.noConfusion hto

/-- Witness for C6: with a deadline that has already passed, the
recursive call after placing 1 at `(0,0)` of `gT` times out, the loop
returns its state unchanged with no undo, the placement remains, and
the timed-out top-level run reports false. -/
theorem timeout_propagates_witness :
    (tryNums (backtrack clockAlways 1) 0 0 sT0 [1, 2, 3, 4, 5, 6, 7, 8, 9] =
        (sT2, false) ∧ sT2.grid 0 0 = 1) ∧
    ((solveRun clockAlways gT).1.timedOut = true ∧
      (solveRun clockAlways gT).2 = false) :=
  ⟨timeout_propagates.1 clockAlways 1 sT0 sT2 0 0 1 [2, 3, 4, 5, 6, 7, 8, 9]
      (by decide) (by decide) (by decide) (by decide),
    by decide, timeout_propagates.2 clockAlways gT (by decide)⟩

/-- C7: the text decoder is total (it is a function on all character
streams, returning a grid and never an error) and computes exactly the
spec's reading: lines containing `"---"` are skipped without counting
toward the 9 rows, each kept line is scanned left to right with `'.'`
as 0, a digit as its value, any other character ignored without
advancing the column cursor, scanning stops after 9 columns, and
unsupplied cells default to 0. -/
theorem parse_total_matches_spec (cs : List Char) :
    construct_from_text cs = construct_from_text_spec cs :=
  parse_eq_spec cs

/-- C8: for every grid with cells in `[0, 9]`, `to_text` produces
exactly 9 data rows, one per line, each being the 9 cell characters
(digit for non-zero, `'.'` for 0) with `'|'` after columns 3 and 6 and
not after column 9, and a dashed separator line after data rows 3 and 6
and not after row 9. -/
theorem toText_format (g : Grid) (hb : boundedGrid g) :
    splitLines (toText g) =
      [rowChars g 0, rowChars g 1, rowChars g 2, dashLine,
       rowChars g 3, rowChars g 4, rowChars g 5, dashLine,
       rowChars g 6, rowChars g 7, rowChars g 8] ∧
    (∀ i : Fin 9, rowChars g i =
      [cellChar (g i 0), cellChar (g i 1), cellChar (g i 2), '|',
       cellChar (g i 3), cellChar (g i 4), cellChar (g i 5), '|',
       cellChar (g i 6), cellChar (g i 7), cellChar (g i 8)]) ∧
    cellChar 0 = '.' ∧
    (∀ v : ℕ, 1 ≤ v → v ≤ 9 → cellChar v = Char.ofNat (v + '0'.toNat)) ∧
    dashLine = List.replicate 11 '-' := by
  refine ⟨splitLines_toText g hb, fun i => rowChars_explicit g i, rfl, ?_, rfl⟩
  intro v h1 h9
  interval_cases v <;> rfl

/-- Witness for C8: the line decomposition of the rendering of `gT`. -/
theorem toText_format_witness :
    boundedGrid gT ∧
    splitLines (toText gT) =
      [rowChars gT 0, rowChars gT 1, rowChars gT 2, dashLine,
       rowChars gT 3, rowChars gT 4, rowChars gT 5, dashLine,
       rowChars gT 6, rowChars gT 7, rowChars gT 8] :=
  ⟨by decide, (toText_format gT (by decide)).1⟩

/-- C9: a cell holding a non-zero value before `solve` holds the same
value after `solve`, whatever the outcome: the search only writes to
cells that were empty. -/
theorem givens_preserved (clock : ℕ → Bool) (g : Grid) (r c : Fin 9)
    (h : g r c ≠ 0) : (solveRun clock g).1.grid r c = g r c :=
  backtrack_preserve clock 82 _ _ _ rfl r c h

/-- Witness for C9: the given 5 at `(0,0)` of `g5` survives a timed-out
solve. -/
theorem givens_preserved_witness :
    g5 0 0 ≠ 0 ∧ (solveRun clockAlways g5).1.grid 0 0 = g5 0 0 :=
  ⟨by decide, givens_preserved clockAlways g5 0 0 (by decide)⟩

/-- C10: the recursion of `solve` is well-founded on the number of
empty cells: that number is at most 81, and any recursion budget above
it yields the very same run as `solve`'s — the search never exhausts
its depth, so every call terminates. -/
theorem solve_terminates :
    (∀ g : Grid, emptyCount g ≤ 81) ∧
    (∀ (clock : ℕ → Bool) (g : Grid) (fuel : ℕ), 81 < fuel →
      backtrack clock fuel { grid := g, timedOut := false, ticks := 0 } =
        solveRun clock g) := by
  constructor
  · exact emptyCount_le_81
  · intro clock g fuel hf
    exact backtrack_ext clock fuel 82 _
      (by show emptyCount g < fuel; have := emptyCount_le_81 g; omega)
      (by show emptyCount g < 82; have := emptyCount_le_81 g; omega)

/-- Witness for C10: a budget of 100 gives the same run as `solve` on
the all-ones grid. -/
theorem solve_terminates_witness :
    emptyCount g1 ≤ 81 ∧
    backtrack clockNever 100 { grid := g1, timedOut := false, ticks := 0 } =
      solveRun clockNever g1 :=
  ⟨solve_terminates.1 g1, solve_terminates.2 clockNever g1 100 (by omega)⟩

end Sudoku
